import Mathlib

/-!
Verification of the CKAN Toolbox type-inference core (`main.js`) and the
schema utilities (`ckan.js`), as a shallow embedding in Lean.

Cell values coming out of the CSV parser are strings; a missing key on a
row object reads as `undefined`.  We embed a raw cell value as
`Option String`, with `none` standing for `null`/`undefined`.

The JavaScript `Date` runtime parser used by `detectType` is not part of
this repository; `detectType` is therefore parameterised by an abstract
parser `String → Option TimeOfDay`, and a concrete ISO-style parser is
modelled from the spec below (`isoParse`).
-/

/-- The closed set of type tags returned by `detectType` (`main.js`). -/
inductive TypeTag where
  | text
  | int
  | float
  | bool
  | datetime
  | date
deriving DecidableEq, Repr

/-- The time-of-day fields of a parsed date that `detectType` inspects
(`getHours`, `getMinutes`, `getSeconds`). -/
structure TimeOfDay where
  hour : Nat
  minute : Nat
  second : Nat
deriving DecidableEq, Repr

/-- A nonempty all-digit character list: the `\d+` part of the regexes in
`main.js` (`\d` is `[0-9]`). -/
def digitsB (l : List Char) : Bool :=
  !l.isEmpty && l.all (fun c => c.isDigit)

/-- The integer regex of `main.js` line 62 on a character list:
an optional leading minus, then one or more digits, nothing else. -/
def intReAux : List Char → Bool
  | [] => false
  | c :: rest => if c = '-' then digitsB rest else digitsB (c :: rest)

/-- The integer regex of `main.js` line 62: `^-?\d+$`. -/
def intRe (s : String) : Bool :=
  intReAux s.toList

/-- Body of the float regex after the optional minus: `\d*\.\d+`. -/
def floatBody : List Char → Bool
  | [] => false
  | '.' :: rest => digitsB rest
  | c :: rest => c.isDigit && floatBody rest

/-- The float regex of `main.js` line 66 on a character list. -/
def floatReAux : List Char → Bool
  | [] => false
  | c :: rest => if c = '-' then floatBody rest else floatBody (c :: rest)

/-- The float regex of `main.js` line 66: `^-?\d*\.\d+$`. -/
def floatRe (s : String) : Bool :=
  floatReAux s.toList

/-- The boolean-literal list of `main.js` line 58. -/
def boolLits : List String :=
  ["true", "false", "True", "False", "0", "1"]

/-- The empty/NA-like test of `main.js` line 54:
`value === "" || value == null || (typeof value === "string" && value.trim() === "") || value === "NA" || value === "NULL"`.
A string trims to `""` exactly when all of its characters are whitespace. -/
def isEmptyLike (value : Option String) : Bool :=
  match value with
  | none => true
  | some s => s == "" || s.toList.all (fun c => c.isWhitespace) || s == "NA" || s == "NULL"

/-- `detectType` of `main.js` lines 53-84, with the JS `Date` parser
abstracted as `parse`.  Rule order is that of the source: empty/NA-like,
boolean literals, integer regex, float regex, date parsing (midnight means
`date`, otherwise `datetime`), fallback `text`. -/
def detectType (parse : String → Option TimeOfDay) (value : Option String) : TypeTag :=
  if isEmptyLike value then TypeTag.text
  else
    match value with
    | none => TypeTag.text
    | some s =>
      if s ∈ boolLits then TypeTag.bool
      else if intRe s then TypeTag.int
      else if floatRe s then TypeTag.float
      else
        match parse s with
        | some t =>
          if t.hour == 0 && t.minute == 0 && t.second == 0 then TypeTag.date
          else TypeTag.datetime
        | none => TypeTag.text

/-- Modelled from the spec: the source classifies dates with the
JavaScript `Date` runtime parser, which is not part of this repository.
Per the spec (§4.1 rule 5 and §9) the parser is pinned to an ISO-8601
date-only grammar `YYYY-MM-DD`, and such a date-only string parses to
exactly midnight. -/
def isoParse (s : String) : Option TimeOfDay :=
  match s.toList with
  | [y1, y2, y3, y4, '-', m1, m2, '-', d1, d2] =>
    if ([y1, y2, y3, y4, m1, m2, d1, d2].all (fun c => c.isDigit))
        && (1 ≤ (m1.toNat - 48) * 10 + (m2.toNat - 48))
        && ((m1.toNat - 48) * 10 + (m2.toNat - 48) ≤ 12)
        && (1 ≤ (d1.toNat - 48) * 10 + (d2.toNat - 48))
        && ((d1.toNat - 48) * 10 + (d2.toNat - 48) ≤ 31)
    then some ⟨0, 0, 0⟩
    else none
  | _ => none

/-- The per-column tally object of `main.js` line 30:
`{ text: 0, int: 0, float: 0, bool: 0, datetime: 0, date: 0 }`. -/
structure TypeCounts where
  text : Nat
  int : Nat
  float : Nat
  bool : Nat
  datetime : Nat
  date : Nat
deriving DecidableEq, Repr

/-- The all-zero initial tally. -/
def initCounts : TypeCounts := ⟨0, 0, 0, 0, 0, 0⟩

/-- `typeCounts[detectedType] = (typeCounts[detectedType] || 0) + 1`
(`main.js` line 39): `detectedType` is always one of the six keys, so the
update increments exactly one field. -/
def bump (tc : TypeCounts) : TypeTag → TypeCounts
  | TypeTag.text => { tc with text := tc.text + 1 }
  | TypeTag.int => { tc with int := tc.int + 1 }
  | TypeTag.float => { tc with float := tc.float + 1 }
  | TypeTag.bool => { tc with bool := tc.bool + 1 }
  | TypeTag.datetime => { tc with datetime := tc.datetime + 1 }
  | TypeTag.date => { tc with date := tc.date + 1 }

/-- `Object.entries(typeCounts)` in the insertion order of the literal on
`main.js` line 30: text, int, float, bool, datetime, date. -/
def entriesOf (tc : TypeCounts) : List (TypeTag × Nat) :=
  [(TypeTag.text, tc.text), (TypeTag.int, tc.int), (TypeTag.float, tc.float),
   (TypeTag.bool, tc.bool), (TypeTag.datetime, tc.datetime), (TypeTag.date, tc.date)]

/-- `chooseType` of `main.js` lines 87-97: running maximum starts at 0 with
`text` selected; a tag replaces the selection only when its count is
strictly greater than the running maximum. -/
def chooseType (tc : TypeCounts) : TypeTag :=
  ((entriesOf tc).foldl
    (fun acc p => if p.2 > acc.2 then p else acc)
    (TypeTag.text, 0)).1

/-- The body of the per-row loop of `main.js` lines 32-40, as one step of a
fold over the column's values.  The example is set when
`value !== "" && value != null && example === null`; then the detected
type's count is incremented. -/
def scanStep (parse : String → Option TimeOfDay) (acc : TypeCounts × Option String)
    (value : Option String) : TypeCounts × Option String :=
  let ex := if value ≠ some "" ∧ value ≠ none ∧ acc.2 = none then value else acc.2
  (bump acc.1 (detectType parse value), ex)

/-- The whole per-column scan of `main.js` lines 30-40: tally initialised
to all zeros, example to `null`, then one `scanStep` per row value. -/
def columnScan (parse : String → Option TimeOfDay) (values : List (Option String)) :
    TypeCounts × Option String :=
  values.foldl (scanStep parse) (initCounts, none)

/-- A parsed CSV row: a JavaScript object embedded as an ordered
association list of string keys and string values. -/
def Row : Type := List (String × String)

/-- `row[header]`: property access on a row object (`undefined` when the
key is absent). -/
def rowGet (row : Row) (h : String) : Option String :=
  (List.find? (fun p => p.1 == h) row).map (fun p => p.2)

/-- `Object.keys`: the keys of an object literal built from a list of
key insertions, in first-occurrence order, each key once. -/
def objKeys : List String → List String
  | [] => []
  | k :: ks => k :: (objKeys ks).filter (fun x => x ≠ k)

/-- `Object.keys(data[0])` (`main.js` line 27); `[]` for an empty table. -/
def headersOf : List Row → List String
  | [] => []
  | first :: _ => objKeys (first.map (fun p => p.1))

/-- One output record of `generateDataDictionary` (`main.js` lines 42-47).
The `example` field of the source is named `exampleVal` here. -/
structure DictEntry where
  column : String
  type : TypeTag
  exampleVal : Option String
  description : String
deriving DecidableEq, Repr

/-- `generateDataDictionary` of `main.js` lines 25-50.  For zero rows the
source returns the empty object literal, i.e. a dictionary with no
entries, embedded as the empty list.  Otherwise one entry per header of
the first row, in that row's key order. -/
def generateDataDictionary (parse : String → Option TimeOfDay) (data : List Row) :
    List DictEntry :=
  match data with
  | [] => []
  | _ :: _ =>
    (headersOf data).map (fun header =>
      let scanned := columnScan parse (data.map (fun row => rowGet row header))
      { column := header, type := chooseType scanned.1,
        exampleVal := scanned.2, description := "" })

/-- Specification-side definition (from the spec's words, for comparison
with the scan in the source): the first value in row order satisfying
`value != "" && value != null`, or `null` when no row has one. -/
def firstNonEmpty : List (Option String) → Option String
  | [] => none
  | v :: rest => if v ≠ some "" ∧ v ≠ none then v else firstNonEmpty rest

/-- The sum of the six tag counts of a tally. -/
def sumCounts (tc : TypeCounts) : Nat :=
  tc.text + tc.int + tc.float + tc.bool + tc.datetime + tc.date

/-- One field of a datastore schema as used by `ckan.js`: the `id` and
`type` properties (`schemaDict` reads exactly these two). -/
structure SchemaField where
  id : String
  type : String
deriving DecidableEq, Repr

/-- The field-list preparation inside `setDataDictionary` (`ckan.js` line
48): `refFields[0]?.id === "_id" ? refFields.slice(1) : refFields` — the
list that is then sent to the `datastore_create` call. -/
def setDataDictionaryFields (refFields : List SchemaField) : List SchemaField :=
  match refFields with
  | [] => []
  | f :: rest => if f.id = "_id" then rest else f :: rest

/-- `Object.keys(schemaDict(schema))`: the field names of a schema, first
occurrence of each, in order. -/
def schemaKeys (schema : List SchemaField) : List String :=
  objKeys (schema.map (fun f => f.id))

/-- Property lookup in `schemaDict(schema)` (`ckan.js` lines 58-59):
`Object.fromEntries` keeps the value of the last pair with a given key;
an absent key reads as `undefined` (`none`). -/
def schemaDict (schema : List SchemaField) (n : String) : Option String :=
  (List.find? (fun f => f.id == n) schema.reverse).map (fun f => f.type)

/-- `typeMismatches` of `compareSchemas` (`ckan.js` line 69):
`Object.keys(a).filter(k => a[k] !== b[k])`. -/
def typeMismatches (src dst : List SchemaField) : List String :=
  (schemaKeys src).filter (fun k => schemaDict src k ≠ schemaDict dst k)

/-- Lexicographic comparison of character lists by character code:
JavaScript's default array sort compares strings by their code units. -/
def charListLE : List Char → List Char → Bool
  | [], _ => true
  | _ :: _, [] => false
  | a :: as, b :: bs =>
    if a.toNat < b.toNat then true
    else if b.toNat < a.toNat then false
    else charListLE as bs

/-- The string order used by `Object.keys(x).sort()`. -/
def strLE (a b : String) : Bool :=
  charListLE a.toList b.toList

/-- `Object.keys(x).sort()`: the field names sorted by the code-unit
string order. -/
def sortedKeys (schema : List SchemaField) : List String :=
  List.insertionSort (fun a b : String => strLE a b = true) (schemaKeys schema)

/-- `.join()` on the sorted key array: the keys interleaved with `","`,
at the character level (two strings are equal exactly when their
character lists are). -/
def joinedKeys (schema : List SchemaField) : List Char :=
  List.intercalate [','] ((sortedKeys schema).map (fun s => s.toList))

/-- `sameNames` of `compareSchemas` (`ckan.js` line 68):
`Object.keys(a).sort().join() === Object.keys(b).sort().join()`. -/
def sameNames (src dst : List SchemaField) : Bool :=
  joinedKeys src == joinedKeys dst

/-- The pure result of `compareSchemas` (`ckan.js` lines 61-71) on two
already-fetched schemas. -/
def compareSchemas (src dst : List SchemaField) : Bool × List String :=
  (sameNames src dst, typeMismatches src dst)

/-! ### Helper lemmas about the classifier -/

lemma digit_not_ws (c : Char) (h : c.isDigit = true) : c.isWhitespace = false := by
  cases hcw : c.isWhitespace
  · rfl
  · have hd := hcw
    simp only [Char.isWhitespace, Bool.or_eq_true, decide_eq_true_eq] at hd
    rcases hd with ((rfl | rfl) | rfl) | rfl
    all_goals exact absurd h (by decide)

lemma digitsB_forall (l : List Char) (h : digitsB l = true) :
    l ≠ [] ∧ ∀ c ∈ l, c.isDigit = true := by
  simp only [digitsB, Bool.and_eq_true, List.all_eq_true, List.isEmpty_eq_true,
    Bool.not_eq_true'] at h
  obtain ⟨h1, h2⟩ := h
  exact ⟨by simpa using h1, h2⟩

lemma intRe_chars (s : String) (h : intRe s = true) :
    ∃ c rest, s.toList = c :: rest ∧ c.isWhitespace = false := by
  unfold intRe at h
  rcases hl : s.toList with _ | ⟨c, rest⟩
  · rw [hl] at h; exact absurd h (by decide)
  · rw [hl] at h
    by_cases hc : c = '-'
    · subst hc; exact ⟨'-', rest, rfl, by decide⟩
    · rw [intReAux, if_neg hc] at h
      obtain ⟨-, hall⟩ := digitsB_forall _ h
      exact ⟨c, rest, rfl, digit_not_ws c (hall c (by simp))⟩

lemma not_all_ws_of_head (s : String) (c : Char) (rest : List Char)
    (hl : s.toList = c :: rest) (hc : c.isWhitespace = false) :
    (s.toList.all (fun c => c.isWhitespace)) = false := by
  rw [hl]
  simp [List.all_cons, hc]

lemma intRe_not_emptyLike (s : String) (h : intRe s = true) :
    isEmptyLike (some s) = false := by
  have hs0 : s ≠ "" := by rintro rfl; exact absurd h (by decide)
  have hNA : s ≠ "NA" := by rintro rfl; exact absurd h (by decide)
  have hNULL : s ≠ "NULL" := by rintro rfl; exact absurd h (by decide)
  obtain ⟨c, rest, hl, hc⟩ := intRe_chars s h
  have hws := not_all_ws_of_head s c rest hl hc
  simp only [isEmptyLike, Bool.or_eq_false_iff, beq_eq_false_iff_ne, ne_eq]
  refine ⟨⟨⟨hs0, hws⟩, hNA⟩, hNULL⟩

/-! ### Helper lemmas about the column scan -/

lemma foldl_scanStep_fst (parse : String → Option TimeOfDay) (vs : List (Option String)) :
    ∀ tc e, (List.foldl (scanStep parse) (tc, e) vs).1
      = List.foldl (fun tc v => bump tc (detectType parse v)) tc vs := by
  induction vs with
  | nil => intro tc e; rfl
  | cons v vs ih =>
    intro tc e
    simp only [List.foldl_cons]
    exact ih _ _

lemma bump_comm (tc : TypeCounts) (a b : TypeTag) :
    bump (bump tc a) b = bump (bump tc b) a := by
  cases a <;> cases b <;> rfl

lemma tallyFold_perm (parse : String → Option TimeOfDay)
    {vs vs' : List (Option String)} (hp : vs.Perm vs') :
    ∀ tc, List.foldl (fun tc v => bump tc (detectType parse v)) tc vs
      = List.foldl (fun tc v => bump tc (detectType parse v)) tc vs' := by
  induction hp with
  | nil => intro tc; rfl
  | cons x _ ih => intro tc; simp only [List.foldl_cons]; exact ih _
  | swap x y l => intro tc; simp only [List.foldl_cons]; rw [bump_comm]
  | trans _ _ ih1 ih2 => intro tc; rw [ih1, ih2]

lemma foldl_scanStep_snd_some (parse : String → Option TimeOfDay)
    (vs : List (Option String)) :
    ∀ tc x, (List.foldl (scanStep parse) (tc, some x) vs).2 = some x := by
  induction vs with
  | nil => intro tc x; rfl
  | cons v vs ih =>
    intro tc x
    simp only [List.foldl_cons]
    have hstep : scanStep parse (tc, some x) v
        = (bump tc (detectType parse v), some x) := by
      simp [scanStep]
    rw [hstep]
    exact ih _ _

lemma foldl_scanStep_snd_none (parse : String → Option TimeOfDay)
    (vs : List (Option String)) :
    ∀ tc, (List.foldl (scanStep parse) (tc, none) vs).2 = firstNonEmpty vs := by
  induction vs with
  | nil => intro tc; rfl
  | cons v vs ih =>
    intro tc
    simp only [List.foldl_cons, firstNonEmpty]
    by_cases hv : v ≠ some "" ∧ v ≠ none
    · have hstep : scanStep parse (tc, none) v = (bump tc (detectType parse v), v) := by
        simp only [scanStep]
        rw [if_pos ⟨hv.1, hv.2, trivial⟩]
      rw [hstep, if_pos hv]
      obtain ⟨s, rfl⟩ := Option.ne_none_iff_exists'.mp hv.2
      exact foldl_scanStep_snd_some parse vs _ s
    · have hstep : scanStep parse (tc, none) v
          = (bump tc (detectType parse v), none) := by
        simp only [scanStep]
        rw [if_neg (by tauto)]
      rw [hstep, if_neg hv]
      exact ih _

lemma columnScan_snd (parse : String → Option TimeOfDay) (vs : List (Option String)) :
    (columnScan parse vs).2 = firstNonEmpty vs :=
  foldl_scanStep_snd_none parse vs initCounts

lemma firstNonEmpty_ne_empty (vs : List (Option String)) :
    firstNonEmpty vs ≠ some "" := by
  induction vs with
  | nil => simp [firstNonEmpty]
  | cons v vs ih =>
    simp only [firstNonEmpty]
    by_cases hv : v ≠ some "" ∧ v ≠ none
    · rw [if_pos hv]; exact hv.1
    · rw [if_neg hv]; exact ih

lemma sumCounts_bump (tc : TypeCounts) (t : TypeTag) :
    sumCounts (bump tc t) = sumCounts tc + 1 := by
  cases t <;> simp [sumCounts, bump] <;> omega

lemma sumCounts_foldl (parse : String → Option TimeOfDay) (vs : List (Option String)) :
    ∀ tc, sumCounts (List.foldl (fun tc v => bump tc (detectType parse v)) tc vs)
      = sumCounts tc + vs.length := by
  induction vs with
  | nil => intro tc; simp
  | cons v vs ih =>
    intro tc
    simp only [List.foldl_cons, List.length_cons]
    rw [ih, sumCounts_bump]
    omega

/-! ### Helper lemmas about object keys -/

lemma mem_objKeys (n : String) : ∀ l : List String, n ∈ objKeys l ↔ n ∈ l := by
  intro l
  induction l with
  | nil => simp [objKeys]
  | cons k ks ih =>
    simp only [objKeys, List.mem_cons, List.mem_filter]
    by_cases hn : n = k
    · simp [hn]
    · simp [hn, ih]

lemma objKeys_nodup : ∀ l : List String, (objKeys l).Nodup := by
  intro l
  induction l with
  | nil => simp [objKeys]
  | cons k ks ih =>
    simp only [objKeys, List.nodup_cons]
    refine ⟨fun hk => ?_, ih.filter _⟩
    have := (List.mem_filter.mp hk).2
    simp at this

/-! ### Helper lemmas about the code-unit string order -/

lemma charListLE_head_le {a b : Char} {as bs : List Char}
    (h : charListLE (a :: as) (b :: bs) = true) : a.toNat ≤ b.toNat := by
  simp only [charListLE] at h
  by_cases hab : a.toNat < b.toNat
  · omega
  · rw [if_neg hab] at h
    by_cases hba : b.toNat < a.toNat
    · rw [if_pos hba] at h; exact absurd h (by simp)
    · omega

lemma charListLE_tail {a b : Char} {as bs : List Char}
    (h : charListLE (a :: as) (b :: bs) = true) (he : a.toNat = b.toNat) :
    charListLE as bs = true := by
  simp only [charListLE] at h
  rw [if_neg (by omega), if_neg (by omega)] at h
  exact h

lemma charListLE_total (l1 : List Char) :
    ∀ l2, charListLE l1 l2 = true ∨ charListLE l2 l1 = true := by
  induction l1 with
  | nil => intro l2; left; rfl
  | cons a as ih =>
    intro l2
    cases l2 with
    | nil => right; rfl
    | cons b bs =>
      by_cases hab : a.toNat < b.toNat
      · left; simp [charListLE, hab]
      · by_cases hba : b.toNat < a.toNat
        · right; simp [charListLE, hba]
        · rcases ih bs with h | h
          · left; simp [charListLE, hab, hba, h]
          · right; simp [charListLE, hab, hba, h]

lemma charListLE_trans (l1 : List Char) :
    ∀ l2 l3, charListLE l1 l2 = true → charListLE l2 l3 = true →
      charListLE l1 l3 = true := by
  induction l1 with
  | nil => intro l2 l3 _ _; rfl
  | cons a as ih =>
    intro l2 l3 h12 h23
    cases l2 with
    | nil => exact absurd h12 (by simp [charListLE])
    | cons b bs =>
      cases l3 with
      | nil => exact absurd h23 (by simp [charListLE])
      | cons c cs =>
        have hab := charListLE_head_le h12
        have hbc := charListLE_head_le h23
        simp only [charListLE]
        by_cases hac : a.toNat < c.toNat
        · rw [if_pos hac]
        · rw [if_neg hac, if_neg (by omega)]
          have hab' : a.toNat = b.toNat := by omega
          have hbc' : b.toNat = c.toNat := by omega
          exact ih bs cs (charListLE_tail h12 hab') (charListLE_tail h23 hbc')

lemma char_toNat_inj {a b : Char} (h : a.toNat = b.toNat) : a = b :=
  Char.ext (UInt32.toNat.inj h)

lemma charListLE_antisymm (l1 : List Char) :
    ∀ l2, charListLE l1 l2 = true → charListLE l2 l1 = true → l1 = l2 := by
  induction l1 with
  | nil =>
    intro l2 _ h21
    cases l2 with
    | nil => rfl
    | cons b bs => exact absurd h21 (by simp [charListLE])
  | cons a as ih =>
    intro l2 h12 h21
    cases l2 with
    | nil => exact absurd h12 (by simp [charListLE])
    | cons b bs =>
      have hab := charListLE_head_le h12
      have hba := charListLE_head_le h21
      have he : a.toNat = b.toNat := by omega
      rw [char_toNat_inj he, ih bs (charListLE_tail h12 he) (charListLE_tail h21 he.symm)]

instance : IsTotal String (fun a b => strLE a b = true) :=
  ⟨fun a b => charListLE_total a.toList b.toList⟩

instance : IsTrans String (fun a b => strLE a b = true) :=
  ⟨fun a b c => charListLE_trans a.toList b.toList c.toList⟩

instance : IsAntisymm String (fun a b => strLE a b = true) :=
  ⟨fun a b h1 h2 => String.toList_inj.mp (charListLE_antisymm a.toList b.toList h1 h2)⟩

lemma sortedKeys_perm (schema : List SchemaField) :
    (sortedKeys schema).Perm (schemaKeys schema) :=
  List.perm_insertionSort _ _

lemma sortedKeys_sorted (schema : List SchemaField) :
    List.Sorted (fun a b => strLE a b = true) (sortedKeys schema) :=
  List.sorted_insertionSort _ _

lemma sortedKeys_eq_iff (src dst : List SchemaField) :
    sortedKeys src = sortedKeys dst ↔ (schemaKeys src).Perm (schemaKeys dst) := by
  constructor
  · intro h
    exact (sortedKeys_perm src).symm.trans (h ▸ sortedKeys_perm dst)
  · intro h
    exact List.eq_of_perm_of_sorted
      ((sortedKeys_perm src).trans (h.trans (sortedKeys_perm dst).symm))
      (sortedKeys_sorted src) (sortedKeys_sorted dst)

lemma intercalate_ne_nil {l : List (List Char)} (h : l ≠ [])
    (hne : ∀ x ∈ l, x ≠ []) : List.intercalate [','] l ≠ [] := by
  cases l with
  | nil => exact absurd rfl h
  | cons x xs =>
    cases xs with
    | nil =>
      simp only [List.intercalate, List.intersperse_single, List.flatten_cons,
        List.flatten_nil, List.append_nil]
      exact hne x (by simp)
    | cons y ys =>
      simp only [List.intercalate, List.intersperse_cons₂, List.flatten_cons]
      intro hcontra
      rcases List.append_eq_nil.mp hcontra with ⟨hx, -⟩
      exact hne x (by simp) hx

lemma intercalate_inj {l1 l2 : List (List Char)}
    (h1 : ∀ x ∈ l1, x ≠ [] ∧ ',' ∉ x) (h2 : ∀ x ∈ l2, x ≠ [] ∧ ',' ∉ x)
    (heq : List.intercalate [','] l1 = List.intercalate [','] l2) : l1 = l2 := by
  rcases eq_or_ne l1 [] with rfl | hl1
  · rcases eq_or_ne l2 [] with rfl | hl2
    · rfl
    · exact absurd heq.symm (intercalate_ne_nil hl2 (fun x hx => (h2 x hx).1))
  · rcases eq_or_ne l2 [] with rfl | hl2
    · exact absurd heq (intercalate_ne_nil hl1 (fun x hx => (h1 x hx).1))
    · have e1 := List.splitOn_intercalate l1 ',' (fun l hl => (h1 l hl).2) hl1
      have e2 := List.splitOn_intercalate l2 ',' (fun l hl => (h2 l hl).2) hl2
      rw [← e1, ← e2]
      exact congrArg (fun l => l.splitOn ',') heq

lemma mem_sortedKeys_props {schema : List SchemaField}
    (hs : ∀ f ∈ schema, f.id ≠ "" ∧ ',' ∉ f.id.toList) :
    ∀ x ∈ (sortedKeys schema).map (fun s => s.toList), x ≠ [] ∧ ',' ∉ x := by
  intro x hx
  rw [List.mem_map] at hx
  obtain ⟨s, hsmem, rfl⟩ := hx
  have hmem : s ∈ schemaKeys schema := (sortedKeys_perm schema).mem_iff.mp hsmem
  rw [schemaKeys, mem_objKeys, List.mem_map] at hmem
  obtain ⟨f, hf, rfl⟩ := hmem
  obtain ⟨hne, hnc⟩ := hs f hf
  refine ⟨fun hnil => hne ?_, hnc⟩
  exact String.toList_inj.mp (by rw [hnil, String.toList_empty])

lemma sameNames_iff_sortedKeys (src dst : List SchemaField)
    (hs : ∀ f ∈ src, f.id ≠ "" ∧ ',' ∉ f.id.toList)
    (hd : ∀ f ∈ dst, f.id ≠ "" ∧ ',' ∉ f.id.toList) :
    sameNames src dst = true ↔ sortedKeys src = sortedKeys dst := by
  unfold sameNames joinedKeys
  rw [beq_iff_eq]
  constructor
  · intro h
    have hmap := intercalate_inj (mem_sortedKeys_props hs) (mem_sortedKeys_props hd) h
    exact (List.map_injective_iff.mpr (fun a b hab => String.toList_inj.mp hab)) hmap
  · intro h
    rw [h]

lemma mem_schemaKeys {n : String} {schema : List SchemaField} :
    n ∈ schemaKeys schema ↔ n ∈ schema.map (fun f => f.id) :=
  mem_objKeys n _

lemma perm_keys_iff (src dst : List SchemaField) :
    (schemaKeys src).Perm (schemaKeys dst) ↔
      ∀ n, n ∈ src.map (fun f => f.id) ↔ n ∈ dst.map (fun f => f.id) := by
  have d1 : (schemaKeys src).Nodup := objKeys_nodup _
  have d2 : (schemaKeys dst).Nodup := objKeys_nodup _
  rw [List.perm_ext_iff_of_nodup d1 d2]
  refine forall_congr' (fun n => ?_)
  rw [mem_schemaKeys, mem_schemaKeys]

/-! ### Claim theorems -/

/-- C1: for every cell value matching `^-?\d+$`, `detectType` returns
`bool` if the value is literally `"0"` or `"1"`, and `int` otherwise,
because the boolean-literal rule is checked before the integer rule. -/
theorem detectType_int_rule (parse : String → Option TimeOfDay) (s : String)
    (h : intRe s = true) :
    detectType parse (some s) =
      if s = "0" ∨ s = "1" then TypeTag.bool else TypeTag.int := by
  by_cases h0 : s = "0"
  · subst h0
    have hb : detectType parse (some "0") = TypeTag.bool := rfl
    simp [hb]
  by_cases h1 : s = "1"
  · subst h1
    have hb : detectType parse (some "1") = TypeTag.bool := rfl
    simp [hb]
  have hempty := intRe_not_emptyLike s h
  have hbool : s ∉ boolLits := by
    intro hmem
    simp only [boolLits, List.mem_cons, List.not_mem_nil, or_false] at hmem
    rcases hmem with rfl | rfl | rfl | rfl | rfl | rfl
    · exact absurd h (by decide)
    · exact absurd h (by decide)
    · exact absurd h (by decide)
    · exact absurd h (by decide)
    · exact h0 rfl
    · exact h1 rfl
  rw [if_neg (by tauto)]
  simp [detectType, hempty, hbool, h]

/-- Witness for C1: the theorem applied at the concrete value `"7"`. -/
theorem detectType_int_rule_witness :
    intRe "7" = true ∧
      detectType isoParse (some "7") =
        if ("7" : String) = "0" ∨ ("7" : String) = "1" then TypeTag.bool
        else TypeTag.int :=
  ⟨by decide, detectType_int_rule isoParse "7" (by decide)⟩

/-- C2: for a Raw Table with zero rows, `generateDataDictionary` returns
the empty Data Dictionary — a dictionary with no entries — and raises no
error.  (At zero rows the source returns the empty object literal, which
has no entries; nonempty tables yield an array of entries.) -/
theorem generateDataDictionary_empty (parse : String → Option TimeOfDay) :
    generateDataDictionary parse [] = [] := rfl

/-- C3 counterexample: in a column whose first value is `"NA"` the entry's
Example Value is `"NA"`, although `"NA"` is empty/NA-like — the example
guard of the source only excludes `""` and `null`, so the claim that such
values never become the Example Value is false. -/
theorem na_becomes_example :
    isEmptyLike (some "NA") = true ∧
      (generateDataDictionary isoParse [[("a", "NA")], [("a", "5")]]).map
        (fun e => e.exampleVal) = [some "NA"] := by
  exact ⟨by decide, by decide⟩

/-- C3 (amended): every `"NA"`, `"NULL"`, empty, or whitespace-only value
classifies as `text`; the empty string (and an absent value) never becomes
a column's Example Value; but a nonempty empty/NA-like value such as
`"NA"` in the first non-empty position does become the Example Value. -/
theorem emptyLike_text_and_example (parse : String → Option TimeOfDay) :
    (∀ v, isEmptyLike v = true → detectType parse v = TypeTag.text)
    ∧ ∀ data e, e ∈ generateDataDictionary parse data → e.exampleVal ≠ some "" := by
  constructor
  · intro v hv
    simp [detectType, hv]
  · intro data e he
    cases data with
    | nil => simp [generateDataDictionary] at he
    | cons first rest =>
      simp only [generateDataDictionary, List.mem_map] at he
      obtain ⟨h, hh, rfl⟩ := he
      simp only []
      rw [columnScan_snd]
      exact firstNonEmpty_ne_empty _

/-- Witness for C3 (amended): the classification half applied at `"NULL"`. -/
theorem emptyLike_text_and_example_witness :
    detectType isoParse (some "NULL") = TypeTag.text :=
  (emptyLike_text_and_example isoParse).1 (some "NULL") (by decide)

/-- C4: each entry's Example Value equals the first value of its column in
row order with `value != "" && value != null`, and is `null` when no row
of the column has such a value; being the first such value, it is never
overwritten by a later row. -/
theorem exampleVal_first_nonEmpty (parse : String → Option TimeOfDay) (data : List Row) :
    (generateDataDictionary parse data).map (fun e => (e.column, e.exampleVal))
      = (headersOf data).map
          (fun h => (h, firstNonEmpty (data.map (fun row => rowGet row h)))) := by
  cases data with
  | nil => rfl
  | cons first rest =>
    simp only [generateDataDictionary, List.map_map]
    refine List.map_congr_left (fun h hh => ?_)
    simp only [Function.comp]
    rw [columnScan_snd]

/-- C5: `chooseType` starts from a running maximum of zero with `text`
selected and replaces the selection only on a strictly greater count,
iterating in the fixed entry order text, int, float, bool, datetime,
date; consequently a tally with every tag's count equal — all zero or all
tied at the same nonzero count — resolves to `text`. -/
theorem chooseType_all_tied (n : Nat) : chooseType ⟨n, n, n, n, n, n⟩ = TypeTag.text := by
  rcases Nat.eq_zero_or_pos n with rfl | hn
  · decide
  · simp [chooseType, entriesOf, hn, lt_self_iff_false]

/-- C7: for every column of every Raw Table, the six tag counts of the
tally after the scan sum to the number of rows — the classifier is total,
so each row (including rows where the column is absent) increments exactly
one tag. -/
theorem tally_sums_to_rows (parse : String → Option TimeOfDay) (data : List Row)
    (h : String) :
    sumCounts (columnScan parse (data.map (fun row => rowGet row h))).1
      = data.length := by
  unfold columnScan
  rw [foldl_scanStep_fst, sumCounts_foldl]
  simp [initCounts, sumCounts]

/-- C8: for a column whose values all classify to the same tag, the
resolved type is unchanged under any permutation of the column's values in
row order — the tally, and hence `chooseType`, depends only on the
multiset of values. -/
theorem resolvedType_perm (parse : String → Option TimeOfDay)
    (vs vs' : List (Option String)) (t : TypeTag)
    (hp : vs.Perm vs') (_hhom : ∀ v ∈ vs, detectType parse v = t) :
    chooseType (columnScan parse vs).1 = chooseType (columnScan parse vs').1 := by
  unfold columnScan
  rw [foldl_scanStep_fst, foldl_scanStep_fst, tallyFold_perm parse hp]

/-- Witness for C8: an all-`int` two-value column and its swap. -/
theorem resolvedType_perm_witness :
    ([some "2", some "3"] : List (Option String)).Perm [some "3", some "2"] ∧
      chooseType (columnScan isoParse [some "2", some "3"]).1
        = chooseType (columnScan isoParse [some "3", some "2"]).1 :=
  ⟨by decide, resolvedType_perm isoParse _ _ TypeTag.int (by decide) (by decide)⟩

/-- C9: the field-list preparation of `setDataDictionary` removes exactly
the first field when its id is `"_id"`, passes the list through unchanged
otherwise, and never removes a field named `"_id"` in a later position
(every field after the first survives). -/
theorem setDataDictionaryFields_spec (f : SchemaField) (rest : List SchemaField) :
    setDataDictionaryFields (f :: rest)
        = (if f.id = "_id" then rest else f :: rest)
      ∧ ∀ g ∈ rest, g ∈ setDataDictionaryFields (f :: rest) := by
  refine ⟨rfl, fun g hg => ?_⟩
  simp only [setDataDictionaryFields]
  by_cases hf : f.id = "_id"
  · rw [if_pos hf]; exact hg
  · rw [if_neg hf]; exact List.mem_cons_of_mem f hg

/-- Witness for C9: a later `"_id"` field survives the preparation. -/
theorem setDataDictionaryFields_spec_witness :
    (⟨"_id", "text"⟩ : SchemaField) ∈
      setDataDictionaryFields [⟨"_id", "int"⟩, ⟨"a", "int"⟩, ⟨"_id", "text"⟩] :=
  (setDataDictionaryFields_spec ⟨"_id", "int"⟩ [⟨"a", "int"⟩, ⟨"_id", "text"⟩]).2
    ⟨"_id", "text"⟩ (by simp)

/-- C6: a value not matched by the empty/NA, boolean, integer, or float
rules whose date parse succeeds is classified `date` exactly when the
parsed time of day has hour, minute, and second all zero, and `datetime`
otherwise; in particular `"2023-01-01"` parses to midnight and is
classified `date`. -/
theorem detectType_date_rule (parse : String → Option TimeOfDay) (s : String)
    (h1 : isEmptyLike (some s) = false) (h2 : s ∉ boolLits)
    (h3 : intRe s = false) (h4 : floatRe s = false)
    (t : TimeOfDay) (hp : parse s = some t) :
    detectType parse (some s)
        = (if t.hour = 0 ∧ t.minute = 0 ∧ t.second = 0 then TypeTag.date
           else TypeTag.datetime)
      ∧ detectType isoParse (some "2023-01-01") = TypeTag.date := by
  refine ⟨?_, by decide⟩
  have hstep : detectType parse (some s)
      = (if t.hour == 0 && t.minute == 0 && t.second == 0 then TypeTag.date
         else TypeTag.datetime) := by
    unfold detectType
    rw [if_neg (by simp [h1])]
    simp only []
    rw [if_neg h2, if_neg (by simp [h3]), if_neg (by simp [h4]), hp]
  rw [hstep]
  by_cases hmid : t.hour = 0 ∧ t.minute = 0 ∧ t.second = 0
  · rw [if_pos (by simp [hmid.1, hmid.2.1, hmid.2.2]), if_pos hmid]
  · rw [if_neg (by simpa [Bool.and_eq_true, beq_iff_eq, and_assoc] using hmid),
      if_neg hmid]

/-- Witness for C6: the theorem applied at `"2023-01-01"`, which the
modelled ISO parser sends to midnight. -/
theorem detectType_date_rule_witness :
    isoParse "2023-01-01" = some ⟨0, 0, 0⟩ ∧
      detectType isoParse (some "2023-01-01")
        = (if (0 : Nat) = 0 ∧ (0 : Nat) = 0 ∧ (0 : Nat) = 0 then TypeTag.date
           else TypeTag.datetime) :=
  ⟨by decide,
    (detectType_date_rule isoParse "2023-01-01" (by decide) (by decide) (by decide)
      (by decide) ⟨0, 0, 0⟩ (by decide)).1⟩

/-- C10 counterexample: with a source schema holding the single field name
`"x,y"` and a destination holding `"x"` and `"y"`, the comma-joined sorted
key strings coincide, so `sameNames` is `true` although the two name sets
are different. -/
theorem sameNames_not_set_equality :
    sameNames [⟨"x,y", "text"⟩] [⟨"x", "text"⟩, ⟨"y", "text"⟩] = true
      ∧ ("x,y" : String) ∈ ([⟨"x,y", "text"⟩] : List SchemaField).map (fun f => f.id)
      ∧ ("x,y" : String)
          ∉ ([⟨"x", "text"⟩, ⟨"y", "text"⟩] : List SchemaField).map (fun f => f.id) := by
  exact ⟨by decide, by decide, by decide⟩

/-- C10 (amended): for every pair of schemas, `typeMismatches` contains
exactly the field names of the source schema whose type differs from the
destination's type for that name (a name absent from the destination
always differs), so a field present only in the destination never
appears; and — provided every field name is nonempty and contains no
comma, a proviso on this conjunct only, since `sameNames` compares the
comma-joined sorted name strings — `sameNames` is true exactly when the
two schemas' name sets are equal irrespective of field order. -/
theorem compareSchemas_spec (src dst : List SchemaField) :
    (∀ n, n ∈ typeMismatches src dst ↔
        n ∈ src.map (fun f => f.id) ∧ schemaDict src n ≠ schemaDict dst n)
      ∧ (∀ n, n ∉ src.map (fun f => f.id) → n ∉ typeMismatches src dst)
      ∧ ((∀ f ∈ src, f.id ≠ "" ∧ ',' ∉ f.id.toList) →
          (∀ f ∈ dst, f.id ≠ "" ∧ ',' ∉ f.id.toList) →
          (sameNames src dst = true ↔
            ∀ n, n ∈ src.map (fun f => f.id) ↔ n ∈ dst.map (fun f => f.id))) := by
  have hchar : ∀ n, n ∈ typeMismatches src dst ↔
      n ∈ src.map (fun f => f.id) ∧ schemaDict src n ≠ schemaDict dst n := by
    intro n
    unfold typeMismatches
    rw [List.mem_filter, mem_schemaKeys]
    simp only [decide_eq_true_eq]
  refine ⟨hchar, ?_, ?_⟩
  · intro n hn hmem
    exact hn ((hchar n).mp hmem).1
  · intro hs hd
    rw [sameNames_iff_sortedKeys src dst hs hd, sortedKeys_eq_iff, perm_keys_iff]

/-- Witness for C10 (amended): concrete one-field schemas with the same
name and different types; the name is a mismatch and `sameNames` holds. -/
theorem compareSchemas_spec_witness :
    ("a" : String) ∈ typeMismatches [⟨"a", "int"⟩] [⟨"a", "text"⟩]
      ∧ sameNames [⟨"a", "int"⟩] [⟨"a", "text"⟩] = true := by
  have h := compareSchemas_spec [⟨"a", "int"⟩] [⟨"a", "text"⟩]
  refine ⟨(h.1 "a").mpr ⟨by decide, by decide⟩,
    (h.2.2 (by decide) (by decide)).mpr (fun n => Iff.rfl)⟩

